import Mathlib

/-!
Verification of the ext2 user-space driver core (`src/src/core.cc`,
`src/include/ext2++/core.hh`) against its natural-language specification.

The development is a shallow embedding.  Device I/O (`Read`/`Write` over the
file descriptor) is modelled by total functions: a disk is a byte-addressable
total map `Nat → Nat`, so a `Read` never fails; the higher-level structures
(superblock, inodes, directory chains) are modelled as records holding the
fields the verified operations touch (on-disk padding, UUIDs, journaling
hints and other fields no operation reads are omitted).  Machine integers are
`Nat` with an explicit `% 2^w` exactly where the C++ performs width-limited
arithmetic (`u16` mount count, `u32` timestamps and the `u32` inode-offset
product).  Loops are embedded as structural recursions: the directory and
read loops recurse on the entry chain or on explicit fuel that the calling
theorems always supply in sufficient quantity.
-/

namespace Ext2

/-- Superblock: the fields of `struct Superblock` that the verified
operations read or write.  All fields are little-endian machine integers in
the source (`u32`/`u16`), modelled as `Nat`. -/
structure Superblock where
  s_inodes_count : Nat
  s_blocks_count : Nat
  s_log_block_size : Nat
  s_blocks_per_group : Nat
  s_inodes_per_group : Nat
  s_mtime : Nat
  s_mnt_count : Nat
  s_magic : Nat
  s_state : Nat
  s_rev_level : Nat
  s_inode_size : Nat
  s_feature_compat : Nat
  s_feature_incompat : Nat
  s_feature_ro_compat : Nat
deriving DecidableEq

/-- `Superblock::block_size`: `1024u << s_log_block_size` (a `u32` shift). -/
def Superblock.block_size (sb : Superblock) : Nat :=
  1024 * 2 ^ sb.s_log_block_size % 4294967296

/-- `Drive::TryMount` composed with the `Drive` constructor, as a pure
function from the superblock read off the device (plus the current wall
clock in seconds) to the in-memory superblock of the mounted drive.
The checks, in source order: magic, incompat/ro_compat features, state;
then the constructor refreshes `s_mtime` (cast to `u32`) and increments the
`u16` `s_mnt_count`. -/
def TryMount (sb : Superblock) (now : Nat) : Option Superblock :=
  if ¬ sb.s_magic = 0xEF53 then none
  else if ¬ sb.s_feature_incompat = 0 ∨ ¬ sb.s_feature_ro_compat = 0 then none
  else if sb.s_state = 2 then none
  else
    some { sb with
           s_state := 2,
           s_mtime := now % 4294967296,
           s_mnt_count := (sb.s_mnt_count + 1) % 65536 }

/-- The persistent state of the device: the superblock stored at byte
offset 1024.  (The rest of the device is irrelevant to mount/unmount.) -/
structure Device where
  sbOnDisk : Superblock
deriving DecidableEq

/-- Mounting against a device: `TryMount` reads the superblock from the
device and performs no write, so a successful mount returns the in-memory
superblock together with the unchanged device. -/
def TryMountDevice (dev : Device) (now : Nat) : Option (Superblock × Device) :=
  match TryMount dev.sbOnDisk now with
  | none => none
  | some m => some (m, dev)

/-- `Drive::~Drive`: set `s_state = FsState::Valid` (= 1) in the in-memory
superblock and write it back to offset 1024. -/
def UnmountDrive (mem : Superblock) (dev : Device) : Device :=
  { dev with sbOnDisk := { mem with s_state := 1 } }

/-- A cleanly unmounted, feature-free superblock that `TryMount` accepts. -/
def sbGood : Superblock :=
  { s_inodes_count := 16, s_blocks_count := 64, s_log_block_size := 0,
    s_blocks_per_group := 64, s_inodes_per_group := 16, s_mtime := 0,
    s_mnt_count := 7, s_magic := 0xEF53, s_state := 1, s_rev_level := 0,
    s_inode_size := 128, s_feature_compat := 0, s_feature_incompat := 0,
    s_feature_ro_compat := 0 }

/-- The in-memory superblock produced by mounting `sbGood` at time 77. -/
def sbGoodMounted : Superblock :=
  { sbGood with s_state := 2, s_mtime := 77, s_mnt_count := 8 }

/-- The in-memory superblock produced by mounting `sbGood` at time 1000. -/
def sbGoodMounted1000 : Superblock :=
  { sbGood with s_state := 2, s_mtime := 1000, s_mnt_count := 8 }

/-- A device holding `sbGood` (on-disk state `Valid`). -/
def dev0 : Device := { sbOnDisk := sbGood }

/-- `sbGood` with the undefined state value 0. -/
def sbState0 : Superblock := { sbGood with s_state := 0 }

/-- `sbGood` with the out-of-range state value 3. -/
def sbState3 : Superblock := { sbGood with s_state := 3 }

/-- Block group descriptor: the fields of `struct BlockGroupDescriptor`. -/
structure BlockGroupDescriptor where
  bg_block_bitmap : Nat
  bg_inode_bitmap : Nat
  bg_inode_table : Nat
  bg_free_blocks_count : Nat
  bg_free_inodes_count : Nat
  bg_used_dirs_count : Nat
deriving DecidableEq

/-- `Drive::ComputeInodeOffset`.  The descriptor-table read is abstracted as
the total map `readDesc` from a block-group index to its descriptor (or
`none` on an I/O failure).  The final offset is computed, as in the source,
in `u32` arithmetic: `u32 Offset = dt->bg_inode_table * Sb.block_size() +
LocalIndex * Sb.s_inode_size`. -/
def ComputeInodeOffset (sb : Superblock)
    (readDesc : Nat → Option BlockGroupDescriptor) (inodeNumber : Nat) : Option Nat :=
  if inodeNumber = 0 ∨ sb.s_inodes_count < inodeNumber then none
  else
    let blockGroup := (inodeNumber - 1) / sb.s_inodes_per_group
    let localIndex := (inodeNumber - 1) % sb.s_inodes_per_group
    match readDesc blockGroup with
    | none => none
    | some dt =>
      some ((dt.bg_inode_table * sb.block_size + localIndex * sb.s_inode_size) % 4294967296)

/-- A superblock with 4096-byte blocks for the inode-offset overflow
scenario (a > 4 GiB volume). -/
def sb7 : Superblock :=
  { sbGood with s_log_block_size := 2, s_inodes_per_group := 8, s_inodes_count := 16 }

/-- Descriptor table whose group-0 inode table lives at block 2^20: at
4096-byte blocks its byte offset is exactly 2^32. -/
def desc7 : Nat → Option BlockGroupDescriptor :=
  fun _ => some { bg_block_bitmap := 0, bg_inode_bitmap := 0, bg_inode_table := 1048576,
                  bg_free_blocks_count := 0, bg_free_inodes_count := 0,
                  bg_used_dirs_count := 0 }

/-- Index node: the fields of `struct Inode` that the verified operations
read (`i_block` is the 15-entry block-pointer array). -/
structure Inode where
  i_mode : Nat
  i_uid : Nat
  i_size : Nat
  i_atime : Nat
  i_ctime : Nat
  i_mtime : Nat
  i_gid : Nat
  i_links_count : Nat
  i_blocks : Nat
  i_block : List Nat
deriving DecidableEq

/-- A little-endian `u32` load: `reinterpret_cast<u32*>(page)[i]` on a page
of bytes starting at device offset `base`. -/
def word (disk : Nat → Nat) (base i : Nat) : Nat :=
  disk (base + 4 * i) + 256 * disk (base + 4 * i + 1) +
    65536 * disk (base + 4 * i + 2) + 16777216 * disk (base + 4 * i + 3)

/-- Read `size` bytes from the device starting at offset `offs`. -/
def diskBytes (disk : Nat → Nat) (offs size : Nat) : List Nat :=
  (List.range size).map (fun i => disk (offs + i))

/-- Result of the `read_loop` helper in `Drive::ReadInodeData`: the bytes
written to the buffer, whether the loop finished the whole request
(`Result::Done`), and the final `BlockIndex` and `Size`. -/
structure LoopOut where
  bytes : List Nat
  done : Bool
  blockIndex : Nat
  size : Nat
deriving DecidableEq

/-- The `while (BlockIndex < limit and Size > 0)` loop inside `read_loop`.
`blockNumber` is the block number fetched ONCE before the loop is entered
(the source does not refetch it inside the loop); the fuel argument is
always called with at least `limit`, which bounds the iteration count. -/
def readWhile (disk : Nat → Nat) (B blockNumber limit : Nat) :
    Nat → Nat → Nat → List Nat × Nat × Nat
  | 0, blockIndex, size => ([], blockIndex, size)
  | fuel + 1, blockIndex, size =>
    if blockIndex < limit ∧ 0 < size then
      let toRead := min size B
      let chunk := diskBytes disk (blockNumber * B) toRead
      let r := readWhile disk B blockNumber limit fuel (blockIndex + 1) (size - toRead)
      (chunk ++ r.1, r.2)
    else ([], blockIndex, size)

/-- The `read_loop` lambda of `Drive::ReadInodeData`: read the first block
at `blockOffset`, then (after fetching the next block number once) read the
remaining blocks of the region.  `nth` models the `nth_block_number`
callback, threading the callback's captured state `σ` (the cached indirect
pages); with a total disk the callback never fails. -/
def readLoop {σ : Type} (disk : Nat → Nat) (B : Nat) (nth : Nat → σ → Nat × σ)
    (limit blockIndex blockOffset size : Nat) (s : σ) : LoopOut :=
  let p1 := nth blockIndex s
  let toRead := min size (B - blockOffset)
  let chunk := diskBytes disk (p1.1 * B + blockOffset) toRead
  if toRead = size then { bytes := chunk, done := true, blockIndex := blockIndex, size := size - toRead }
  else
    let p2 := nth (blockIndex + 1) p1.2
    let r := readWhile disk B p2.1 limit limit (blockIndex + 1) (size - toRead)
    { bytes := chunk ++ r.1, done := r.2.2 == 0, blockIndex := r.2.1, size := r.2.2 }

/-- The `nth_block_number` callback of the doubly-indirect region: the
doubly-indirect page at `dBase` is pre-loaded; the singly-indirect page is
cached in the callback state (`none` = the zero-initialised scratch vector,
never loaded) and re-loaded whenever `(n - 12) % P = 0`, exactly as in the
source. -/
def nthDoubly (disk : Nat → Nat) (B P dBase : Nat) (n : Nat) (cache : Option Nat) :
    Nat × Option Nat :=
  let cache2 := if (n - 12) % P = 0 then some (word disk dBase ((n - 12) / P) * B) else cache
  (match cache2 with
   | none => 0
   | some base => word disk base ((n - 12) % P), cache2)

/-- The `nth_block_number` callback of the triply-indirect region: the
triply-indirect page at `tBase` is pre-loaded; the doubly- and
singly-indirect pages are cached in the state and re-loaded when
`(n - 12) % P² = 0` resp. `(n - 12) % P = 0`, as in the source (`none` =
the zero-initialised scratch vector). -/
def nthTriply (disk : Nat → Nat) (B P tBase : Nat) (n : Nat)
    (st : Option Nat × Option Nat) : Nat × (Option Nat × Option Nat) :=
  let dc := if (n - 12) % (P * P) = 0
            then some (word disk tBase ((n - 12) / (P * P)) * B) else st.1
  let ic := if (n - 12) % P = 0
            then some ((match dc with
                        | none => 0
                        | some base => word disk base ((n - 12) / P)) * B)
            else st.2
  (match ic with
   | none => 0
   | some base => word disk base ((n - 12) % P), (dc, ic))

/-- `Drive::ReadInodeData`: the four regions (direct, indirect, doubly and
triply indirect) run in sequence; each region's `read_loop` is entered only
when `BlockIndex` is below the region's limit (the triply-indirect call is
unconditional, as in the source), `BlockOffset` is reset to 0 after a region
actually ran, and falling out of the last region is the `FileTooLarge`
failure (`none`). -/
def ReadInodeData (disk : Nat → Nat) (sb : Superblock) (I : Inode)
    (offset size : Nat) : Option (List Nat) :=
  let B := sb.block_size
  let P := B / 4
  let bi0 := offset / B
  let bo0 := offset % B
  let r1 :=
    if bi0 < 12 then
      readLoop disk B (fun n _ => (I.i_block.getD n 0, ())) 12 bi0 bo0 size ()
    else { bytes := [], done := false, blockIndex := bi0, size := size }
  if r1.done then some r1.bytes else
  let bo1 := if bi0 < 12 then 0 else bo0
  let r2 :=
    if r1.blockIndex < 12 + P then
      readLoop disk B (fun n _ => (word disk (I.i_block.getD 12 0 * B) (n - 12), ()))
        (12 + P) r1.blockIndex bo1 r1.size ()
    else { bytes := [], done := false, blockIndex := r1.blockIndex, size := r1.size }
  if r2.done then some (r1.bytes ++ r2.bytes) else
  let bo2 := if r1.blockIndex < 12 + P then 0 else bo1
  let r3 :=
    if r2.blockIndex < 12 + P + P * P then
      readLoop disk B (nthDoubly disk B P (I.i_block.getD 13 0 * B))
        (12 + P + P * P) r2.blockIndex bo2 r2.size none
    else { bytes := [], done := false, blockIndex := r2.blockIndex, size := r2.size }
  if r3.done then some (r1.bytes ++ r2.bytes ++ r3.bytes) else
  let bo3 := if r2.blockIndex < 12 + P + P * P then 0 else bo2
  let r4 :=
    readLoop disk B (nthTriply disk B P (I.i_block.getD 14 0 * B))
      (12 + P + P * P + P * P * P) r3.blockIndex bo3 r3.size (none, none)
  if r4.done then some (r1.bytes ++ r2.bytes ++ r3.bytes ++ r4.bytes) else none

/-- Modelled from the spec: the logical-block-to-physical-block mapping
table of section 4.3 (`0..12` direct, `12..12+P` single-indirect,
`12+P..12+P+P²` doubly-indirect with outer index `(k-12-P)/P`,
`12+P+P²..12+P+P²+P³` triply-indirect), used as the reference meaning of a
file's content. -/
def specBlockNumber (disk : Nat → Nat) (B P : Nat) (iblock : List Nat) (k : Nat) : Nat :=
  if k < 12 then iblock.getD k 0
  else if k < 12 + P then word disk (iblock.getD 12 0 * B) (k - 12)
  else if k < 12 + P + P * P then
    word disk (word disk (iblock.getD 13 0 * B) ((k - 12 - P) / P) * B) ((k - 12 - P) % P)
  else
    word disk
      (word disk
        (word disk (iblock.getD 14 0 * B) ((k - 12 - P - P * P) / (P * P)) * B)
        ((k - 12 - P - P * P) % (P * P) / P) * B)
      ((k - 12 - P - P * P) % P)

/-- Modelled from the spec: the byte sequence of the logical range
`[offset, offset + size)` of a file, each byte taken from the physical block
given by the spec's mapping table. -/
def specFileBytes (disk : Nat → Nat) (sb : Superblock) (I : Inode)
    (offset size : Nat) : List Nat :=
  (List.range size).map (fun i =>
    disk (specBlockNumber disk sb.block_size (sb.block_size / 4) I.i_block
            ((offset + i) / sb.block_size) * sb.block_size +
          (offset + i) % sb.block_size))

/-- A demo disk whose every byte names the 1024-byte block it lives in. -/
def demoDisk : Nat → Nat := fun o => o / 1024 % 256

/-- A regular file of 3 direct blocks (10, 11 and 12) on `sbGood`
(1024-byte blocks). -/
def inode1 : Inode :=
  { i_mode := 0x8000, i_uid := 0, i_size := 3072, i_atime := 0, i_ctime := 0,
    i_mtime := 0, i_gid := 0, i_links_count := 1, i_blocks := 6,
    i_block := [10, 11, 12, 0, 0, 0, 0, 0, 0, 0, 0, 0, 0, 0, 0] }

/-- Linked directory entry (`struct LinkedDirEntryHeader` plus the name
bytes that follow it on disk).  `inode`, `rec_len`, `name_len` and
`file_type` are the header's `u32`/`u16`/`u8`/`u8` fields; `name` holds the
`name_len` name bytes stored after the header. -/
structure DirEntry where
  inode : Nat
  rec_len : Nat
  name_len : Nat
  file_type : Nat
  name : List Char
deriving DecidableEq

/-- `Dir::Iterator::operator++` run to exhaustion over a directory whose
on-disk entry chain is `entries` (the parsed records at the cumulative
`rec_len` offsets), starting at byte offset `offset`: stop when the offset
reaches `i_size` or a zero `rec_len` is read; skip entries with `inode = 0`
but still advance by their `rec_len`; otherwise yield the name that
`operator*` builds — the first `min(255, name_len)` stored name bytes. -/
def DirIterate (isize : Nat) : List DirEntry → Nat → List (List Char)
  | [], _ => []
  | e :: rest, offset =>
    if isize ≤ offset then []
    else if e.rec_len = 0 then []
    else if e.inode = 0 then DirIterate isize rest (offset + e.rec_len)
    else e.name.take (min 255 e.name_len) :: DirIterate isize rest (offset + e.rec_len)

/-- A concrete well-formed directory chain: `.`, `..`, a tombstone, and a
regular entry, record lengths summing to 48. -/
def chain4 : List DirEntry :=
  [ { inode := 2, rec_len := 12, name_len := 1, file_type := 2, name := ['.'] },
    { inode := 2, rec_len := 12, name_len := 2, file_type := 2, name := ['.', '.'] },
    { inode := 0, rec_len := 12, name_len := 3, file_type := 0, name := ['o', 'l', 'd'] },
    { inode := 11, rec_len := 12, name_len := 4, file_type := 1, name := ['f', 'i', 'l', 'e'] } ]

/-- A mounted drive, at the level of detail the path and directory
operations touch: the superblock revision level, the inode table
(`Drive::ReadInode`, abstracting its device read as a total map), and each
directory inode's parsed on-disk entry chain (the data that
`Drive::ReadInodeData` returns for it). -/
structure Drv where
  rev_level : Nat
  inodes : Nat → Option Inode
  dirData : Nat → List DirEntry

/-- The shared fallback of `Drive::GetFileFormat`: read the target inode
and return `i_mode & Inode::FileFormatMask` (= `i_mode & 0xF000`). -/
def fileFormatFromInode (d : Drv) (inum : Nat) : Option Nat :=
  match d.inodes inum with
  | none => none
  | some i => some (i.i_mode &&& 0xF000)

/-- `Drive::GetFileFormat`: when `s_rev_level == RevisionLevel::DynamicRev`
(= 1) the entry's `file_type` byte is mapped through the switch (0 Unknown,
1 Regular, 2 Directory, 3 CharDev, 4 BlockDev, 5 Fifo, 6 Socket,
7 Symlink); an unrecognised byte, or revision 0, falls back to the target
inode's mode. -/
def GetFileFormat (d : Drv) (e : DirEntry) : Option Nat :=
  if d.rev_level = 1 then
    if e.file_type = 0 then some 0x0000
    else if e.file_type = 1 then some 0x8000
    else if e.file_type = 2 then some 0x4000
    else if e.file_type = 3 then some 0x2000
    else if e.file_type = 4 then some 0x6000
    else if e.file_type = 5 then some 0x1000
    else if e.file_type = 6 then some 0xC000
    else if e.file_type = 7 then some 0xA000
    else fileFormatFromInode d e.inode
  else fileFormatFromInode d e.inode

/-- The scan loop of `Drive::FindDirectoryEntry` over the parsed entry
chain: while the offset is below `i_size`, read the next header; if its
`name_len` equals the searched name's length and the stored bytes match,
return it; otherwise advance by `rec_len`, stopping on a zero `rec_len`. -/
def findDirEntryLoop (isize : Nat) (name : List Char) :
    List DirEntry → Nat → Option DirEntry
  | [], _ => none
  | e :: rest, offset =>
    if isize ≤ offset then none
    else if e.name_len = name.length ∧ e.name = name then some e
    else if e.rec_len = 0 then none
    else findDirEntryLoop isize name rest (offset + e.rec_len)

/-- `Drive::FindDirectoryEntry`: fails on a non-directory inode, otherwise
scans the directory's entry chain from offset 0. -/
def FindDirectoryEntry (d : Drv) (inum : Nat) (I : Inode) (name : List Char) :
    Option DirEntry :=
  if I.i_mode &&& 0xF000 = 0x4000 then findDirEntryLoop I.i_size name (d.dirData inum) 0
  else none

/-- The character test `c == '/'` (the boundary of `Path.find('/')` and
the test of `RemoveLeadingSlashes`). -/
def isSlash (c : Char) : Bool := c == '/'

/-- The complement: a character that is part of a path component. -/
def notSlash (c : Char) : Bool := ! (c == '/')

/-- `Drive::InodeFromPath(std::string_view, InodeNumberType)`: the
component-walking loop, embedded as a fueled recursion (each iteration
consumes at least one character of the path, so any fuel above the path
length is enough; fuel 0 is never reached by the calling theorems).  Each
iteration splits off the component before the first `/`, reads the current
origin inode, requires it to be a directory, looks the component up, and —
when the remaining path still starts with `/` — checks the entry's file
format is a directory and strips the slashes. -/
def InodeFromPathNum (d : Drv) : Nat → List Char → Nat → Option Nat
  | 0, _, _ => none
  | fuel + 1, path, origin =>
    if path.isEmpty then some origin
    else
      let comp := path.takeWhile notSlash
      let rest := (path.dropWhile notSlash).drop 1
      match d.inodes origin with
      | none => none
      | some oi =>
        if ¬ oi.i_mode &&& 0xF000 = 0x4000 then none
        else
          match FindDirectoryEntry d origin oi comp with
          | none => none
          | some entry =>
            if rest.head? = some '/' then
              match GetFileFormat d entry with
              | none => none
              | some ff =>
                if ¬ ff = 0x4000 then none
                else
                  let rest2 := rest.dropWhile isSlash
                  if rest2.isEmpty then some entry.inode
                  else InodeFromPathNum d fuel rest2 entry.inode
            else
              if rest.isEmpty then some entry.inode
              else InodeFromPathNum d fuel rest entry.inode

/-- `Drive::InodeFromPath(std::string_view, std::string_view)`: an absolute
path resolves from the root inode 2 after stripping leading slashes; a
relative path needs a nonempty absolute origin path, which is resolved
first (that recursive call is unfolded here: under the two guards already
established it takes exactly the absolute branch). -/
def InodeFromPathStr (d : Drv) (fuel : Nat) (path originPath : List Char) : Option Nat :=
  if path.isEmpty then none
  else if path.head? = some '/' then
    InodeFromPathNum d fuel (path.dropWhile isSlash) 2
  else if originPath.isEmpty then none
  else if ¬ originPath.head? = some '/' then none
  else
    match InodeFromPathNum d fuel (originPath.dropWhile isSlash) 2 with
    | none => none
    | some o => InodeFromPathNum d fuel path o

/-- The path components as the resolver itself splits them, with the same
fuel discipline: does any component before the end of the walk exceed 255
bytes? -/
def hasLongComponent : Nat → List Char → Bool
  | 0, _ => false
  | fuel + 1, path =>
    if path.isEmpty then false
    else
      let comp := path.takeWhile notSlash
      let rest := (path.dropWhile notSlash).drop 1
      if 255 < comp.length then true
      else
        hasLongComponent fuel
          (if rest.head? = some '/' then rest.dropWhile isSlash else rest)

/-- The platform-agnostic record `struct stat` that `Drive::Stat` fills. -/
structure StatRecord where
  st_ino : Nat
  st_mode : Nat
  st_nlink : Nat
  st_uid : Nat
  st_gid : Nat
  st_size : Nat
  st_blksize : Nat
  st_blocks : Nat
  st_atime : Nat
  st_mtime : Nat
  st_ctime : Nat
deriving DecidableEq

/-- `Drive::Stat`: resolve the path, read the inode, refresh `i_atime` to
the current time (cast to `u32`), write the inode back (`wOk` abstracts
`Drive::WriteInode`'s success); a failed write discards the read result,
otherwise project the updated inode into the record. -/
def Stat (d : Drv) (sb : Superblock) (wOk : Nat → Inode → Bool) (now fuel : Nat)
    (path origin : List Char) : Option StatRecord :=
  match InodeFromPathStr d fuel path origin with
  | none => none
  | some inum =>
    match d.inodes inum with
    | none => none
    | some i =>
      let i2 := { i with i_atime := now % 4294967296 }
      if wOk inum i2 then
        some { st_ino := inum, st_mode := i2.i_mode, st_nlink := i2.i_links_count,
               st_uid := i2.i_uid, st_gid := i2.i_gid, st_size := i2.i_size,
               st_blksize := sb.block_size, st_blocks := i2.i_blocks,
               st_atime := i2.i_atime, st_mtime := i2.i_mtime, st_ctime := i2.i_ctime }
      else none

/-- A directory inode of the given size with no data blocks populated. -/
def dirInode (size : Nat) : Inode :=
  { i_mode := 0x41ED, i_uid := 0, i_size := size, i_atime := 0, i_ctime := 0,
    i_mtime := 0, i_gid := 0, i_links_count := 2, i_blocks := 2,
    i_block := [0, 0, 0, 0, 0, 0, 0, 0, 0, 0, 0, 0, 0, 0, 0] }

/-- A regular-file inode of the given size. -/
def fileInode (size : Nat) : Inode :=
  { i_mode := 0x81A4, i_uid := 0, i_size := size, i_atime := 0, i_ctime := 0,
    i_mtime := 0, i_gid := 0, i_links_count := 1, i_blocks := 2,
    i_block := [0, 0, 0, 0, 0, 0, 0, 0, 0, 0, 0, 0, 0, 0, 0] }

/-- A revision-0 drive: root (inode 2) holds directory `d` (inode 5),
which holds regular file `f` (inode 7). -/
def drv6 : Drv :=
  { rev_level := 0,
    inodes := fun n =>
      if n = 2 then some (dirInode 12)
      else if n = 5 then some (dirInode 12)
      else if n = 7 then some (fileInode 300)
      else none,
    dirData := fun n =>
      if n = 2 then [{ inode := 5, rec_len := 12, name_len := 1, file_type := 0, name := ['d'] }]
      else if n = 5 then [{ inode := 7, rec_len := 12, name_len := 1, file_type := 0, name := ['f'] }]
      else [] }

/-- The same tree as `drv6` but on a revision-1 volume whose entry for `d`
carries the (wrong) file-type byte 1 (`RegularFile`). -/
def drv6b : Drv :=
  { rev_level := 1,
    inodes := drv6.inodes,
    dirData := fun n =>
      if n = 2 then [{ inode := 5, rec_len := 12, name_len := 1, file_type := 1, name := ['d'] }]
      else if n = 5 then [{ inode := 7, rec_len := 12, name_len := 1, file_type := 1, name := ['f'] }]
      else [] }

/-- A revision-1 drive whose inode 9 is a regular file. -/
def drv5 : Drv :=
  { rev_level := 1,
    inodes := fun n =>
      if n = 2 then some (dirInode 12)
      else if n = 9 then some (fileInode 100)
      else none,
    dirData := fun n =>
      if n = 2 then [{ inode := 9, rec_len := 12, name_len := 1, file_type := 2, name := ['x'] }]
      else [] }

/-- A directory entry whose file-type byte claims `Directory` although its
target inode 9 is a regular file. -/
def entry5 : DirEntry :=
  { inode := 9, rec_len := 12, name_len := 1, file_type := 2, name := ['x'] }

/-- A superblock accepted by `TryMount` whose revision level is 1
(`DynamicRev`), matching `drv5.rev_level`. -/
def sbRev1 : Superblock := { sbGood with s_rev_level := 1 }

/-- A 256-character name, one byte longer than `name_len` (a `u8`) can
express. -/
def longName : List Char := List.replicate 256 'a'

end Ext2

namespace Ext2

/-- C2 counterexample: mounting a valid device succeeds, yet the superblock
stored on the device still has `s_state = 1` (`Valid`), not 2 (`HasErrors`):
the mount performs no write, so the on-disk state is not forced to
`HasErrors` while mounted. -/
theorem c2_counterexample :
    (TryMountDevice dev0 1000).map (fun r => r.2.sbOnDisk.s_state) = some 1 := by
  decide

/-- C2 (amended): a successful `TryMount` leaves the device unchanged (the
dirty state exists only in the in-memory superblock, which has
`s_state = 2`); the clean unmount then writes the superblock back with
`s_state = 1` (`Valid`) and the incremented `u16` mount count. -/
theorem c2_amended (dev : Device) (now : Nat) (r : Superblock × Device)
    (h : TryMountDevice dev now = some r) :
    r.2 = dev ∧ r.1.s_state = 2 ∧
      (UnmountDrive r.1 r.2).sbOnDisk.s_state = 1 ∧
      (UnmountDrive r.1 r.2).sbOnDisk.s_mnt_count =
        (dev.sbOnDisk.s_mnt_count + 1) % 65536 := by
  unfold TryMountDevice at h
  cases htm : TryMount dev.sbOnDisk now with
  | none => rw [htm] at h; cases h
  | some m =>
    rw [htm] at h
    injection h with h
    subst h
    unfold TryMount at htm
    split_ifs at htm
    injection htm with htm
    subst htm
    exact ⟨rfl, rfl, rfl, rfl⟩

/-- C2 witness: the amended statement evaluated on the concrete device
`dev0` mounted at time 1000. -/
theorem c2_amended_witness :
    (sbGoodMounted1000, dev0).2 = dev0 ∧ (sbGoodMounted1000, dev0).1.s_state = 2 ∧
      (UnmountDrive (sbGoodMounted1000, dev0).1 (sbGoodMounted1000, dev0).2).sbOnDisk.s_state = 1 ∧
      (UnmountDrive (sbGoodMounted1000, dev0).1 (sbGoodMounted1000, dev0).2).sbOnDisk.s_mnt_count =
        (dev0.sbOnDisk.s_mnt_count + 1) % 65536 :=
  c2_amended dev0 1000 (sbGoodMounted1000, dev0) (by decide)

/-- C3: `TryMount` fails exactly when the magic is not 0xEF53, or some
incompat or ro_compat bit is set, or `s_state = 2` (`HasErrors`); on success
the in-memory superblock has `s_state = 2`, the `u16` mount count
incremented by one, and `s_mtime` set to the current time (cast to `u32`);
and the mount itself writes nothing to the device. -/
theorem c3_mount_gate (sb : Superblock) (now : Nat) :
    (TryMount sb now = none ↔
      (¬ sb.s_magic = 0xEF53 ∨ ¬ sb.s_feature_incompat = 0 ∨
        ¬ sb.s_feature_ro_compat = 0 ∨ sb.s_state = 2)) ∧
    (∀ m, TryMount sb now = some m →
      m.s_state = 2 ∧ m.s_mnt_count = (sb.s_mnt_count + 1) % 65536 ∧
        m.s_mtime = now % 4294967296) ∧
    (∀ r, TryMountDevice { sbOnDisk := sb } now = some r → r.2 = { sbOnDisk := sb }) := by
  refine ⟨?_, ?_, ?_⟩
  · unfold TryMount
    split_ifs <;> simp_all <;> tauto
  · intro m hm
    unfold TryMount at hm
    split_ifs at hm <;>
      first
        | exact Option.noConfusion hm
        | (injection hm with hm; exact hm ▸ ⟨rfl, rfl, rfl⟩)
  · intro r hr
    unfold TryMountDevice at hr
    cases h : TryMount sb now with
    | none => rw [h] at hr; cases hr
    | some m => rw [h] at hr; injection hr with hr; subst hr; rfl

/-- C3 witness: the gate evaluated on the concrete superblock `sbGood`
mounted at time 77. -/
theorem c3_mount_gate_witness :
    sbGoodMounted.s_state = 2 ∧
      sbGoodMounted.s_mnt_count = (sbGood.s_mnt_count + 1) % 65536 ∧
      sbGoodMounted.s_mtime = 77 % 4294967296 :=
  (c3_mount_gate sbGood 77).2.1 sbGoodMounted (by decide)

/-- C9: the state check rejects only the exact value 2 (`HasErrors`); any
other 16-bit state value, defined or not, mounts successfully provided the
magic matches and no incompat or ro_compat bit is set. -/
theorem c9_state_gate (sb : Superblock) (now : Nat)
    (hm : sb.s_magic = 0xEF53) (hi : sb.s_feature_incompat = 0)
    (hr : sb.s_feature_ro_compat = 0) (hs : ¬ sb.s_state = 2) :
    (TryMount sb now).isSome = true := by
  unfold TryMount
  simp [hm, hi, hr, hs]

/-- C9 witness: mounts succeed for the undefined state values 0 and 3. -/
theorem c9_state_gate_witness :
    (TryMount sbState0 5).isSome = true ∧ (TryMount sbState3 5).isSome = true :=
  ⟨c9_state_gate sbState0 5 (by decide) (by decide) (by decide) (by decide),
   c9_state_gate sbState3 5 (by decide) (by decide) (by decide) (by decide)⟩

/-- C7 evidence: for inode 1 of a volume whose group-0 inode table sits at
block 2^20 with 4096-byte blocks, the source's `u32` product wraps to
offset 0, while the exact (unbounded) value of
`bg_inode_table * block_size + local_index * s_inode_size` is 2^32. -/
theorem c7_overflow_evidence :
    ComputeInodeOffset sb7 desc7 1 = some 0 ∧
      1048576 * sb7.block_size + ((1 - 1) % sb7.s_inodes_per_group) * sb7.s_inode_size =
        4294967296 := by
  decide

set_option maxRecDepth 100000 in
/-- C1 evidence: reading 1026 bytes at offset 1023 of a 3-block file with
direct blocks 10, 11, 12 must straddle blocks 0→1→2; the engine reuses the
block number fetched before its inner loop, so the final byte (logical
offset 2048, mapped to block 12 by the block-mapping table) is read from
block 11 instead: the engine returns byte 11 where the mapping table says
byte 12. -/
theorem c1_stale_block_evidence :
    (ReadInodeData demoDisk sbGood inode1 1023 1026).map (fun l => l.getD 1025 999) =
        some 11 ∧
      (specFileBytes demoDisk sbGood inode1 1023 1026).getD 1025 999 = 12 := by
  decide

/-- Helper for C4: with nonzero record lengths and the chain's remaining
record lengths summing from `offset` to `isize`, the iterator walks the
whole chain and enumerates exactly the non-tombstone names. -/
theorem dirIterate_eq_filter (isize : Nat) :
    ∀ (l : List DirEntry) (offset : Nat),
      (∀ e ∈ l, ¬ e.rec_len = 0) →
      offset + (l.map DirEntry.rec_len).sum = isize →
      DirIterate isize l offset =
        (l.filter (fun e => ! e.inode == 0)).map
          (fun e => e.name.take (min 255 e.name_len)) := by
  intro l
  induction l with
  | nil => intro offset _ _; simp [DirIterate]
  | cons e rest ih =>
    intro offset hnz hsum
    have he : ¬ e.rec_len = 0 := hnz e (List.mem_cons_self e rest)
    have hlt : offset < isize := by
      simp only [List.map_cons, List.sum_cons] at hsum
      omega
    have hrest : (offset + e.rec_len) + (rest.map DirEntry.rec_len).sum = isize := by
      simp only [List.map_cons, List.sum_cons] at hsum
      omega
    have ih2 := ih (offset + e.rec_len) (fun x hx => hnz x (List.mem_cons_of_mem e hx)) hrest
    by_cases hz : e.inode = 0
    · simp [DirIterate, Nat.not_le.mpr hlt, he, hz, ih2]
    · simp [DirIterate, Nat.not_le.mpr hlt, he, hz, ih2]

/-- C4: over a well-formed directory chain (nonzero record lengths summing
to `i_size`), iteration yields exactly the names of the entries with a
nonzero inode number, in on-disk order, each name being the first
`min(255, name_len)` stored name bytes; tombstones advance the offset by
their `rec_len` but produce nothing. -/
theorem c4_enumeration (isize : Nat) (l : List DirEntry)
    (hnz : ∀ e ∈ l, ¬ e.rec_len = 0)
    (hsum : (l.map DirEntry.rec_len).sum = isize) :
    DirIterate isize l 0 =
      (l.filter (fun e => ! e.inode == 0)).map
        (fun e => e.name.take (min 255 e.name_len)) :=
  dirIterate_eq_filter isize l 0 hnz (by omega)

/-- C4 witness: the enumeration of the concrete chain `chain4` (which
contains a tombstone) yields `.`, `..` and `file`. -/
theorem c4_enumeration_witness :
    DirIterate 48 chain4 0 =
      (chain4.filter (fun e => ! e.inode == 0)).map
        (fun e => e.name.take (min 255 e.name_len)) :=
  c4_enumeration 48 chain4 (by decide) (by decide)

/-- C5 counterexample: `TryMount` accepts the revision-1 superblock
`sbRev1` (no incompat or ro_compat bits), and on the matching drive `drv5`
the classification of `entry5` takes the file-type-byte path, returning
`Directory` (0x4000), while the inode fallback would return
`RegularFile` (0x8000): the fallback is not always taken. -/
theorem c5_counterexample :
    (TryMount sbRev1 0).isSome = true ∧
      drv5.rev_level = sbRev1.s_rev_level ∧
      GetFileFormat drv5 entry5 = some 0x4000 ∧
      fileFormatFromInode drv5 entry5.inode = some 0x8000 := by
  decide

/-- C5 (amended): `GetFileFormat` reads the target inode and returns
`i_mode & 0xF000` exactly when the volume's revision level is not
`DynamicRev` (1) or the entry's file-type byte is outside the known range
0–7; on a revision-1 volume (which `TryMount` accepts) a byte in 0–7 is
mapped directly without reading the inode. -/
theorem c5_amended (d : Drv) (e : DirEntry)
    (h : ¬ d.rev_level = 1 ∨ 8 ≤ e.file_type) :
    GetFileFormat d e = fileFormatFromInode d e.inode := by
  unfold GetFileFormat
  rcases h with h | h
  · simp [h]
  · split_ifs <;> first | rfl | omega

/-- C5 witness: on the revision-0 drive `drv6` the fallback is taken. -/
theorem c5_amended_witness :
    GetFileFormat drv6 entry5 = fileFormatFromInode drv6 entry5.inode :=
  c5_amended drv6 entry5 (Or.inl (by decide))

/-- C6 counterexample: on `drv6`, `a = "/d"` resolves to the directory
inode 5, and `resolve("/d" + "/" + "/f") = some 7` while
`inode_from_path("/f", origin = 5) = none` (the leading slash of `b`
becomes an empty component that no entry matches); moreover on the
revision-1 drive `drv6b`, `a = "/d/"` resolves to directory inode 5 but
`resolve("/d/" + "/" + "f")` fails while `inode_from_path("f", 5)`
succeeds, so even a `b` without a leading slash fails when `a` ends in a
slash. -/
theorem c6_counterexample :
    InodeFromPathStr drv6 20 "/d".toList [] = some 5 ∧
      Option.map (fun i => i.i_mode &&& 0xF000) (drv6.inodes 5) = some 0x4000 ∧
      InodeFromPathStr drv6 20 ("/d".toList ++ '/' :: "/f".toList) [] = some 7 ∧
      InodeFromPathNum drv6 20 "/f".toList 5 = none ∧
      InodeFromPathStr drv6b 20 "/d/".toList [] = some 5 ∧
      Option.map (fun i => i.i_mode &&& 0xF000) (drv6b.inodes 5) = some 0x4000 ∧
      InodeFromPathStr drv6b 20 ("/d/".toList ++ '/' :: "f".toList) [] = none ∧
      InodeFromPathNum drv6b 20 "f".toList 5 = some 7 := by
  decide

/-- C8: `Stat` resolves the path, reads the inode, refreshes the access
time to the current wall clock and writes the inode back before returning:
if that write fails the read result is discarded (`none`), and on success
the record carries the inode number, mode, link count, uid, gid, size, the
superblock's block size, `i_blocks`, and the access (just updated),
modification and change times. -/
theorem c8_stat (d : Drv) (sb : Superblock) (wOk : Nat → Inode → Bool)
    (now fuel : Nat) (path origin : List Char) (inum : Nat) (i : Inode)
    (hres : InodeFromPathStr d fuel path origin = some inum)
    (hread : d.inodes inum = some i) :
    (wOk inum { i with i_atime := now % 4294967296 } = false →
        Stat d sb wOk now fuel path origin = none) ∧
      (wOk inum { i with i_atime := now % 4294967296 } = true →
        Stat d sb wOk now fuel path origin = some
          { st_ino := inum, st_mode := i.i_mode, st_nlink := i.i_links_count,
            st_uid := i.i_uid, st_gid := i.i_gid, st_size := i.i_size,
            st_blksize := sb.block_size, st_blocks := i.i_blocks,
            st_atime := now % 4294967296, st_mtime := i.i_mtime,
            st_ctime := i.i_ctime }) := by
  unfold Stat
  simp only [hres, hread]
  constructor <;> intro h <;> simp [h]

/-- C8 witness: statting `/d/f` on `drv6` with a succeeding write. -/
theorem c8_stat_witness :
    Stat drv6 sbGood (fun _ _ => true) 500 20 "/d/f".toList [] = some
      { st_ino := 7, st_mode := (fileInode 300).i_mode,
        st_nlink := (fileInode 300).i_links_count,
        st_uid := (fileInode 300).i_uid, st_gid := (fileInode 300).i_gid,
        st_size := (fileInode 300).i_size, st_blksize := sbGood.block_size,
        st_blocks := (fileInode 300).i_blocks, st_atime := 500 % 4294967296,
        st_mtime := (fileInode 300).i_mtime, st_ctime := (fileInode 300).i_ctime } :=
  (c8_stat drv6 sbGood (fun _ _ => true) 500 20 "/d/f".toList [] 7 (fileInode 300)
    (by decide) (by decide)).2 rfl

/-- Helper for C10: the scan loop can never match a name longer than 255
bytes, because every stored `name_len` is a `u8`. -/
theorem findDirEntryLoop_long (isize : Nat) (name : List Char)
    (hlong : 255 < name.length) :
    ∀ (l : List DirEntry) (offset : Nat), (∀ e ∈ l, e.name_len < 256) →
      findDirEntryLoop isize name l offset = none := by
  intro l
  induction l with
  | nil => intro offset _; rfl
  | cons e rest ih =>
    intro offset h8
    have he : e.name_len < 256 := h8 e (List.mem_cons_self e rest)
    have hne : ¬ (e.name_len = name.length ∧ e.name = name) := by
      rintro ⟨h1, -⟩
      omega
    have ih2 := ih (offset + e.rec_len) (fun x hx => h8 x (List.mem_cons_of_mem e hx))
    simp only [findDirEntryLoop, hne, if_false]
    split_ifs <;> simp [ih2]

/-- Helper for C10: `FindDirectoryEntry` fails outright on an over-long
name when every stored `name_len` respects its `u8` width. -/
theorem findDirectoryEntry_long (d : Drv) (inum : Nat) (I : Inode)
    (name : List Char) (h8 : ∀ e ∈ d.dirData inum, e.name_len < 256)
    (hlong : 255 < name.length) :
    FindDirectoryEntry d inum I name = none := by
  unfold FindDirectoryEntry
  split_ifs
  · exact findDirEntryLoop_long I.i_size name hlong (d.dirData inum) 0 h8
  · rfl

/-- Helper for C10: the empty path has no long component. -/
theorem hasLongComponent_nil (f : Nat) : hasLongComponent f [] = false := by
  cases f <;> simp [hasLongComponent]

/-- Helper for C10: when the resolver's own component split meets a
component longer than 255 bytes, resolution returns `none`. -/
theorem inodeFromPathNum_long (d : Drv)
    (h8 : ∀ n, ∀ e ∈ d.dirData n, e.name_len < 256) :
    ∀ fuel path origin, hasLongComponent fuel path = true →
      InodeFromPathNum d fuel path origin = none := by
  intro fuel
  induction fuel with
  | zero => intro path origin _; rfl
  | succ f ih =>
    intro path origin h
    simp only [hasLongComponent] at h
    simp only [InodeFromPathNum]
    by_cases hp : path.isEmpty = true
    · rw [if_pos hp] at h
      exact Bool.noConfusion h
    · rw [if_neg hp] at h ⊢
      by_cases hc : 255 < (path.takeWhile notSlash).length
      · cases hio : d.inodes origin with
        | none => simp only [hio]
        | some oi =>
          by_cases hdir : oi.i_mode &&& 0xF000 = 0x4000
          · simp only [hio, if_neg (not_not_intro hdir),
              findDirectoryEntry_long d origin oi _ (h8 origin) hc]
          · simp only [hio, if_pos hdir]
      · rw [if_neg hc] at h
        cases hio : d.inodes origin with
        | none => simp only [hio]
        | some oi =>
          by_cases hdir : oi.i_mode &&& 0xF000 = 0x4000
          · cases hfe : FindDirectoryEntry d origin oi (path.takeWhile notSlash) with
            | none => simp only [hio, if_neg (not_not_intro hdir), hfe]
            | some entry =>
              by_cases hsl : ((path.dropWhile notSlash).drop 1).head? = some '/'
              · rw [if_pos hsl] at h
                cases hgf : GetFileFormat d entry with
                | none =>
                  simp only [hio, if_neg (not_not_intro hdir), hfe, if_pos hsl, hgf]
                | some ff =>
                  by_cases hff : ff = 0x4000
                  · by_cases hre :
                        (((path.dropWhile notSlash).drop 1).dropWhile isSlash).isEmpty = true
                    · exfalso
                      have h0 : ((path.dropWhile notSlash).drop 1).dropWhile isSlash = [] :=
                        List.isEmpty_iff.mp hre
                      rw [h0, hasLongComponent_nil] at h
                      exact Bool.noConfusion h
                    · have hrec := ih _ entry.inode h
                      simp only [hio, if_neg (not_not_intro hdir), hfe, if_pos hsl, hgf,
                        if_neg (not_not_intro hff), if_neg hre, hrec]
                  · simp only [hio, if_neg (not_not_intro hdir), hfe, if_pos hsl, hgf,
                      if_pos hff]
              · rw [if_neg hsl] at h
                by_cases hre : ((path.dropWhile notSlash).drop 1).isEmpty = true
                · exfalso
                  have h0 : (path.dropWhile notSlash).drop 1 = [] :=
                    List.isEmpty_iff.mp hre
                  rw [h0, hasLongComponent_nil] at h
                  exact Bool.noConfusion h
                · have hrec := ih _ entry.inode h
                  simp only [hio, if_neg (not_not_intro hdir), hfe, if_neg hsl,
                    if_neg hre, hrec]
          · simp only [hio, if_pos hdir]

/-- C10: since `name_len` is a single on-disk byte and `FindDirectoryEntry`
only compares an entry whose `name_len` equals the searched name's length,
a name longer than 255 bytes can never match: the lookup fails, and any
path one of whose components (as split by the resolver) exceeds 255 bytes
never resolves. -/
theorem c10_long_name (d : Drv) (inum : Nat) (I : Inode) (name : List Char)
    (h8 : ∀ n, ∀ e ∈ d.dirData n, e.name_len < 256)
    (hlong : 255 < name.length) :
    FindDirectoryEntry d inum I name = none ∧
      ∀ fuel path origin, hasLongComponent fuel path = true →
        InodeFromPathNum d fuel path origin = none :=
  ⟨findDirectoryEntry_long d inum I name (h8 inum) hlong,
   inodeFromPathNum_long d h8⟩

/-- Helper: `takeWhile` stops at an appended element failing the test. -/
theorem takeWhile_append_stop {α : Type} (pr : α → Bool) (b : α) (hb : pr b = false) :
    ∀ (p q : List α), (p ++ b :: q).takeWhile pr = p.takeWhile pr := by
  intro p q
  induction p with
  | nil => simp [List.takeWhile_cons, hb]
  | cons x xs ih =>
    by_cases hx : pr x = true
    · simp [List.takeWhile_cons, hx, ih]
    · simp [List.takeWhile_cons, Bool.of_not_eq_true hx]

/-- Helper: `dropWhile` stops at an appended element failing the test. -/
theorem dropWhile_append_stop {α : Type} (pr : α → Bool) (b : α) (hb : pr b = false) :
    ∀ (p q : List α), (p ++ b :: q).dropWhile pr = p.dropWhile pr ++ b :: q := by
  intro p q
  induction p with
  | nil => simp [List.dropWhile_cons, hb]
  | cons x xs ih =>
    by_cases hx : pr x = true
    · simp [List.dropWhile_cons, hx, ih]
    · simp [List.dropWhile_cons, Bool.of_not_eq_true hx]

/-- Helper: when `dropWhile` keeps part of `l`, appending to `l` appends to
the result. -/
theorem dropWhile_append_ne_nil {α : Type} (pr : α → Bool) :
    ∀ (l m : List α), ¬ l.dropWhile pr = [] →
      (l ++ m).dropWhile pr = l.dropWhile pr ++ m := by
  intro l
  induction l with
  | nil => intro m h; exact absurd rfl h
  | cons x xs ih =>
    intro m h
    by_cases hx : pr x = true
    · rw [List.dropWhile_cons_of_pos hx] at h
      simp [List.dropWhile_cons, hx, ih m h]
    · simp [List.dropWhile_cons, Bool.of_not_eq_true hx]

/-- Helper: the first element surviving `dropWhile` fails the test. -/
theorem dropWhile_head_not {α : Type} (pr : α → Bool) :
    ∀ (l : List α) (x : α) (xs : List α), l.dropWhile pr = x :: xs → pr x = false := by
  intro l
  induction l with
  | nil => intro x xs h; cases h
  | cons y ys ih =>
    intro x xs h
    by_cases hy : pr y = true
    · rw [List.dropWhile_cons_of_pos hy] at h
      exact ih x xs h
    · rw [List.dropWhile_cons_of_neg hy] at h
      cases h
      exact Bool.of_not_eq_true hy

/-- Helper: `head?` of an append with a nonempty left part. -/
theorem head?_append_ne_nil {α : Type} (l m : List α) (h : ¬ l = []) :
    (l ++ m).head? = l.head? := by
  cases l with
  | nil => exact absurd rfl h
  | cons x xs => rfl

/-- Helper: `getLast?` ignores a head when the tail is nonempty. -/
theorem getLast?_cons_ne {α : Type} (x : α) (xs : List α) (h : ¬ xs = []) :
    (x :: xs).getLast? = xs.getLast? := by
  cases xs with
  | nil => exact absurd rfl h
  | cons y ys => simp [List.getLast?_cons_cons]

/-- Helper: a nonempty `dropWhile` result keeps the last element. -/
theorem getLast?_dropWhile {α : Type} (pr : α → Bool) :
    ∀ (l : List α), ¬ l.dropWhile pr = [] → (l.dropWhile pr).getLast? = l.getLast? := by
  intro l
  induction l with
  | nil => intro h; exact absurd rfl h
  | cons x xs ih =>
    intro h
    by_cases hx : pr x = true
    · rw [List.dropWhile_cons_of_pos hx] at h ⊢
      have hxs : ¬ xs = [] := by
        intro h0
        rw [h0] at h
        exact h rfl
      rw [ih h, getLast?_cons_ne x xs hxs]
    · rw [List.dropWhile_cons_of_neg hx]

/-- Helper: a nonempty list not ending in `/` keeps something after its
leading slashes are stripped. -/
theorem dropWhile_isSlash_ne_nil :
    ∀ (l : List Char), ¬ l = [] → ¬ l.getLast? = some '/' → ¬ l.dropWhile isSlash = [] := by
  intro l
  induction l with
  | nil => intro h _; exact absurd rfl h
  | cons x xs ih =>
    intro _ hlast
    by_cases hx : isSlash x = true
    · rw [List.dropWhile_cons_of_pos hx]
      have hxs : ¬ xs = [] := by
        intro h0
        subst h0
        have : x = '/' := by
          have := hx
          simp [isSlash] at this
          exact this
        subst this
        exact hlast rfl
      exact ih hxs (by rwa [getLast?_cons_ne x xs hxs] at hlast)
    · rw [List.dropWhile_cons_of_neg hx]
      simp

/-- Helper: `dropWhile` never lengthens a list. -/
theorem length_dropWhile_le_self {α : Type} (pr : α → Bool) :
    ∀ l : List α, (l.dropWhile pr).length ≤ l.length := by
  intro l
  induction l with
  | nil => simp
  | cons x xs ih =>
    by_cases hx : pr x = true
    · rw [List.dropWhile_cons_of_pos hx]
      exact Nat.le_succ_of_le ih
    · rw [List.dropWhile_cons_of_neg hx]

/-- Helper: each resolver iteration strictly shortens the path. -/
theorem rest_length_lt (p : List Char) (h : ¬ p = []) :
    ((p.dropWhile notSlash).drop 1).length < p.length := by
  have h1 : (p.dropWhile notSlash).length ≤ p.length := length_dropWhile_le_self _ _
  have h2 : ((p.dropWhile notSlash).drop 1).length = (p.dropWhile notSlash).length - 1 :=
    List.length_drop 1 _
  have h3 : 0 < p.length := List.length_pos.mpr h
  omega

/-- Helper: the resolver's result does not depend on the fuel, as soon as
the fuel exceeds the path length (each iteration consumes at least one
character). -/
theorem inodeFromPathNum_fuel (d : Drv) :
    ∀ (n : Nat) (p : List Char), p.length ≤ n → ∀ (f g origin : Nat),
      p.length < f → p.length < g →
      InodeFromPathNum d f p origin = InodeFromPathNum d g p origin := by
  intro n
  induction n with
  | zero =>
    intro p hp f g origin hf hg
    have hp0 : p = [] := List.length_eq_zero.mp (Nat.le_zero.mp hp)
    subst hp0
    cases f with
    | zero => omega
    | succ f =>
      cases g with
      | zero => omega
      | succ g => simp [InodeFromPathNum]
  | succ n ih =>
    intro p hp f g origin hf hg
    cases f with
    | zero => omega
    | succ f =>
      cases g with
      | zero => omega
      | succ g =>
        by_cases hpe : p.isEmpty = true
        · simp only [InodeFromPathNum, if_pos hpe]
        · simp only [InodeFromPathNum, if_neg hpe]
          have hne : ¬ p = [] := by
            intro h0
            rw [h0] at hpe
            exact hpe rfl
          have hrl : ((p.dropWhile notSlash).drop 1).length < p.length :=
            rest_length_lt p hne
          have hr2 : (((p.dropWhile notSlash).drop 1).dropWhile isSlash).length ≤
              ((p.dropWhile notSlash).drop 1).length := length_dropWhile_le_self _ _
          cases hio : d.inodes origin with
          | none => simp only [hio]
          | some oi =>
            by_cases hdir : oi.i_mode &&& 0xF000 = 0x4000
            · cases hfe : FindDirectoryEntry d origin oi (p.takeWhile notSlash) with
              | none => simp only [hio, if_neg (not_not_intro hdir), hfe]
              | some entry =>
                by_cases hsl : ((p.dropWhile notSlash).drop 1).head? = some '/'
                · cases hgf : GetFileFormat d entry with
                  | none =>
                    simp only [hio, if_neg (not_not_intro hdir), hfe, if_pos hsl, hgf]
                  | some ff =>
                    by_cases hff : ff = 0x4000
                    · by_cases hre :
                          (((p.dropWhile notSlash).drop 1).dropWhile isSlash).isEmpty = true
                      · simp only [hio, if_neg (not_not_intro hdir), hfe, if_pos hsl,
                          hgf, if_neg (not_not_intro hff), if_pos hre]
                      · have heq := ih (((p.dropWhile notSlash).drop 1).dropWhile isSlash)
                          (by omega) f g entry.inode (by omega) (by omega)
                        simp only [hio, if_neg (not_not_intro hdir), hfe, if_pos hsl,
                          hgf, if_neg (not_not_intro hff), if_neg hre, heq]
                    · simp only [hio, if_neg (not_not_intro hdir), hfe, if_pos hsl,
                        hgf, if_pos hff]
                · by_cases hre : ((p.dropWhile notSlash).drop 1).isEmpty = true
                  · simp only [hio, if_neg (not_not_intro hdir), hfe, if_neg hsl,
                      if_pos hre]
                  · have heq := ih ((p.dropWhile notSlash).drop 1) (by omega) f g
                      entry.inode (by omega) (by omega)
                    simp only [hio, if_neg (not_not_intro hdir), hfe, if_neg hsl,
                      if_neg hre, heq]
            · simp only [hio, if_pos hdir]

/-- Helper for C6: if a path `p` that neither starts nor ends with `/`
resolves to `m`, then resolving `p ++ "/" ++ q` (for `q` not starting with
`/`) walks `p` first and continues with `q` from `m`. -/
theorem inodeFromPathNum_append (d : Drv) :
    ∀ (n : Nat) (p q : List Char) (origin m : Nat),
      p.length ≤ n → ¬ p = [] → ¬ p.head? = some '/' → ¬ p.getLast? = some '/' →
      ¬ q.head? = some '/' →
      InodeFromPathNum d (p.length + 1) p origin = some m →
      InodeFromPathNum d ((p ++ '/' :: q).length + 1) (p ++ '/' :: q) origin =
        InodeFromPathNum d (q.length + 1) q m := by
  intro n
  induction n with
  | zero =>
    intro p q origin m hp hne _ _ _ _
    exact absurd (List.length_eq_zero.mp (Nat.le_zero.mp hp)) hne
  | succ n ih =>
    intro p q origin m hp hne hhead hlast hq hres
    have hpe : ¬ p.isEmpty = true := fun h0 => hne (List.isEmpty_iff.mp h0)
    have hape : ¬ (p ++ '/' :: q).isEmpty = true := by
      cases p with
      | nil => exact absurd rfl hne
      | cons x xs => simp
    have hslash : notSlash '/' = false := by rfl
    have hcomp : (p ++ '/' :: q).takeWhile notSlash = p.takeWhile notSlash :=
      takeWhile_append_stop notSlash '/' hslash p q
    have hdropA : (p ++ '/' :: q).dropWhile notSlash = p.dropWhile notSlash ++ '/' :: q :=
      dropWhile_append_stop notSlash '/' hslash p q
    simp only [InodeFromPathNum, if_neg hpe] at hres
    generalize hRR : InodeFromPathNum d (q.length + 1) q m = R
    simp only [InodeFromPathNum, if_neg hape, hcomp, hdropA]
    cases hio : d.inodes origin with
    | none =>
      simp only [hio] at hres
      exact Option.noConfusion hres
    | some oi =>
      simp only [hio] at hres ⊢
      by_cases hdir : oi.i_mode &&& 0xF000 = 0x4000
      case neg =>
        rw [if_pos hdir] at hres
        exact Option.noConfusion hres
      case pos =>
        rw [if_neg (not_not_intro hdir)] at hres ⊢
        cases hfe : FindDirectoryEntry d origin oi (p.takeWhile notSlash) with
        | none =>
          simp only [hfe] at hres
          exact Option.noConfusion hres
        | some entry =>
          simp only [hfe] at hres ⊢
          cases hd : p.dropWhile notSlash with
          | nil =>
            rw [hd] at hres
            simp only [List.drop_nil] at hres
            rw [if_neg (show ¬ (List.head? ([] : List Char) = some '/') by simp)] at hres
            rw [if_pos (show (List.isEmpty ([] : List Char)) = true from rfl)] at hres
            have hm : entry.inode = m := Option.some.inj hres
            simp only [List.nil_append, List.drop_succ_cons, List.drop_zero]
            rw [if_neg hq]
            by_cases hqe : q.isEmpty = true
            · have hq0 : q = [] := List.isEmpty_iff.mp hqe
              subst hq0
              rw [if_pos hqe, hm, ← hRR]
              simp [InodeFromPathNum]
            · rw [if_neg hqe, hm]
              have hql : q.length < (p ++ '/' :: q).length := by
                simp only [List.length_append, List.length_cons]
                omega
              rw [inodeFromPathNum_fuel d q.length q le_rfl
                ((p ++ '/' :: q).length) (q.length + 1) m hql (Nat.lt_succ_self _)]
              exact hRR
          | cons x cs =>
            have hx : x = '/' := by
              have h1 := dropWhile_head_not notSlash p x cs hd
              simp only [notSlash, Bool.not_eq_false'] at h1
              exact eq_of_beq h1
            subst hx
            have hdn : ¬ p.dropWhile notSlash = [] := by
              rw [hd]
              simp
            have hglast : ('/' :: cs).getLast? = p.getLast? := by
              rw [← hd]
              exact getLast?_dropWhile notSlash p hdn
            have hcs : ¬ cs = [] := by
              intro h0
              subst h0
              apply hlast
              rw [← hglast]
              rfl
            have hcslast : ¬ cs.getLast? = some '/' := by
              rw [getLast?_cons_ne '/' cs hcs] at hglast
              intro h0
              exact hlast (hglast ▸ h0)
            have hlen1 : cs.length + 1 ≤ p.length := by
              have h1 := length_dropWhile_le_self notSlash p
              rw [hd] at h1
              simpa using h1
            rw [hd] at hres
            simp only [List.drop_succ_cons, List.drop_zero] at hres
            simp only [List.cons_append, List.drop_succ_cons, List.drop_zero]
            have hheadL : (cs ++ '/' :: q).head? = cs.head? := head?_append_ne_nil cs _ hcs
            by_cases hsl : cs.head? = some '/'
            · rw [if_pos hsl] at hres
              rw [hheadL, if_pos hsl]
              cases hgf : GetFileFormat d entry with
              | none =>
                simp only [hgf] at hres
                exact Option.noConfusion hres
              | some ff =>
                simp only [hgf] at hres ⊢
                by_cases hff : ff = 0x4000
                case neg =>
                  rw [if_pos hff] at hres
                  exact Option.noConfusion hres
                case pos =>
                  rw [if_neg (not_not_intro hff)] at hres ⊢
                  have hds : ¬ cs.dropWhile isSlash = [] :=
                    dropWhile_isSlash_ne_nil cs hcs hcslast
                  have hdse : ¬ (cs.dropWhile isSlash).isEmpty = true :=
                    fun h0 => hds (List.isEmpty_iff.mp h0)
                  rw [if_neg hdse] at hres
                  have hlen2 : (cs.dropWhile isSlash).length ≤ cs.length :=
                    length_dropWhile_le_self isSlash cs
                  rw [inodeFromPathNum_fuel d (cs.dropWhile isSlash).length
                    (cs.dropWhile isSlash) le_rfl p.length
                    ((cs.dropWhile isSlash).length + 1) entry.inode
                    (by omega) (Nat.lt_succ_self _)] at hres
                  have hrest2L : (cs ++ '/' :: q).dropWhile isSlash =
                      cs.dropWhile isSlash ++ '/' :: q :=
                    dropWhile_append_ne_nil isSlash cs ('/' :: q) hds
                  rw [hrest2L]
                  rw [if_neg (show ¬ (cs.dropWhile isSlash ++ '/' :: q).isEmpty = true by
                    cases h0 : cs.dropWhile isSlash with
                    | nil => exact absurd h0 hds
                    | cons a as => simp)]
                  have hdh : ¬ (cs.dropWhile isSlash).head? = some '/' := by
                    cases h0 : cs.dropWhile isSlash with
                    | nil => exact absurd h0 hds
                    | cons a as =>
                      have h1 := dropWhile_head_not isSlash cs a as h0
                      simp only [isSlash] at h1
                      simp only [List.head?_cons, Option.some.injEq]
                      intro h2
                      rw [h2] at h1
                      exact Bool.noConfusion h1
                  have hdlast : ¬ (cs.dropWhile isSlash).getLast? = some '/' := by
                    rw [getLast?_dropWhile isSlash cs hds]
                    exact hcslast
                  have hihres := ih (cs.dropWhile isSlash) q entry.inode m
                    (by omega) hds hdh hdlast hq hres
                  rw [inodeFromPathNum_fuel d (cs.dropWhile isSlash ++ '/' :: q).length
                    (cs.dropWhile isSlash ++ '/' :: q) le_rfl
                    ((p ++ '/' :: q).length)
                    ((cs.dropWhile isSlash ++ '/' :: q).length + 1) entry.inode
                    (by simp only [List.length_append, List.length_cons]; omega)
                    (Nat.lt_succ_self _), hihres, hRR]
            · rw [if_neg hsl] at hres
              rw [hheadL, if_neg hsl]
              have hcse : ¬ cs.isEmpty = true := fun h0 => hcs (List.isEmpty_iff.mp h0)
              rw [if_neg hcse] at hres
              rw [inodeFromPathNum_fuel d cs.length cs le_rfl p.length
                (cs.length + 1) entry.inode (by omega) (Nat.lt_succ_self _)] at hres
              rw [if_neg (show ¬ (cs ++ '/' :: q).isEmpty = true by
                cases cs with
                | nil => exact absurd rfl hcs
                | cons a as => simp)]
              have hihres := ih cs q entry.inode m (by omega) hcs hsl hcslast hq hres
              rw [inodeFromPathNum_fuel d (cs ++ '/' :: q).length (cs ++ '/' :: q)
                le_rfl ((p ++ '/' :: q).length) ((cs ++ '/' :: q).length + 1)
                entry.inode
                (by simp only [List.length_append, List.length_cons]; omega)
                (Nat.lt_succ_self _), hihres, hRR]

/-- C6 (amended): path resolution is associative over `/` when `a`
resolves to a directory inode, `a` does not end with a slash, and `b` does
not begin with one: `resolve(a + "/" + b)` equals
`inode_from_path(b, origin = resolve(a))`.  (The counterexample shows each
slash side condition is necessary.) -/
theorem c6_assoc (d : Drv) (a b : List Char) (m : Nat)
    (ha : InodeFromPathStr d (a.length + 1) a [] = some m)
    (hdir : Option.map (fun i => i.i_mode &&& 0xF000) (d.inodes m) = some 0x4000)
    (hb : ¬ b.head? = some '/')
    (hlast : ¬ a.getLast? = some '/') :
    InodeFromPathStr d ((a ++ '/' :: b).length + 1) (a ++ '/' :: b) [] =
      InodeFromPathNum d (b.length + 1) b m := by
  have hane : ¬ a = [] := by
    intro h0
    subst h0
    simp [InodeFromPathStr] at ha
  have hape : ¬ a.isEmpty = true := fun h0 => hane (List.isEmpty_iff.mp h0)
  by_cases hah : a.head? = some '/'
  case neg =>
    exfalso
    unfold InodeFromPathStr at ha
    rw [if_neg hape, if_neg hah] at ha
    simp at ha
  case pos =>
    unfold InodeFromPathStr at ha ⊢
    rw [if_neg hape, if_pos hah] at ha
    have haape : ¬ (a ++ '/' :: b).isEmpty = true := by
      cases a with
      | nil => exact absurd rfl hane
      | cons x xs => simp
    have hahL : (a ++ '/' :: b).head? = some '/' := by
      rw [head?_append_ne_nil a _ hane]
      exact hah
    rw [if_neg haape, if_pos hahL]
    have hp : ¬ a.dropWhile isSlash = [] := dropWhile_isSlash_ne_nil a hane hlast
    have hdropL : (a ++ '/' :: b).dropWhile isSlash = a.dropWhile isSlash ++ '/' :: b :=
      dropWhile_append_ne_nil isSlash a ('/' :: b) hp
    rw [hdropL]
    have hph : ¬ (a.dropWhile isSlash).head? = some '/' := by
      cases h0 : a.dropWhile isSlash with
      | nil => exact absurd h0 hp
      | cons x xs =>
        have h1 := dropWhile_head_not isSlash a x xs h0
        simp only [isSlash] at h1
        simp only [List.head?_cons, Option.some.injEq]
        intro h2
        rw [h2] at h1
        exact Bool.noConfusion h1
    have hpl : ¬ (a.dropWhile isSlash).getLast? = some '/' := by
      rw [getLast?_dropWhile isSlash a hp]
      exact hlast
    have hlen : (a.dropWhile isSlash).length ≤ a.length :=
      length_dropWhile_le_self isSlash a
    rw [inodeFromPathNum_fuel d (a.dropWhile isSlash).length (a.dropWhile isSlash)
      le_rfl (a.length + 1) ((a.dropWhile isSlash).length + 1) 2 (by omega)
      (Nat.lt_succ_self _)] at ha
    rw [inodeFromPathNum_fuel d (a.dropWhile isSlash ++ '/' :: b).length
      (a.dropWhile isSlash ++ '/' :: b) le_rfl ((a ++ '/' :: b).length + 1)
      ((a.dropWhile isSlash ++ '/' :: b).length + 1) 2
      (by simp only [List.length_append, List.length_cons]; omega)
      (Nat.lt_succ_self _)]
    exact inodeFromPathNum_append d (a.dropWhile isSlash).length (a.dropWhile isSlash)
      b 2 m le_rfl hp hph hpl hb ha

/-- C6 witness: on `drv6`, `resolve("/d" + "/" + "f")` equals
`inode_from_path("f", origin = 5)` where 5 = `resolve("/d")`. -/
theorem c6_assoc_witness :
    InodeFromPathStr drv6 (("/d".toList ++ '/' :: "f".toList).length + 1)
      ("/d".toList ++ '/' :: "f".toList) [] =
      InodeFromPathNum drv6 ("f".toList.length + 1) "f".toList 5 :=
  c6_assoc drv6 "/d".toList "f".toList 5 (by decide) (by decide) (by decide) (by decide)

set_option maxRecDepth 100000 in
/-- C10 witness: on `drv6`, the 256-byte name `longName` is not found in
the root directory, and the path `d/longName` does not resolve. -/
theorem c10_long_name_witness :
    FindDirectoryEntry drv6 2 (dirInode 12) longName = none ∧
      InodeFromPathNum drv6 300 ('d' :: '/' :: longName) 2 = none := by
  have h := c10_long_name drv6 2 (dirInode 12) longName
    (by
      intro n e he
      unfold drv6 at he
      simp only at he
      split_ifs at he <;> simp_all)
    (by decide)
  exact ⟨h.1, h.2 300 ('d' :: '/' :: longName) 2 (by decide)⟩

end Ext2
